import Mathlib

/-!
# NexusTrader — verification of the orchestration core

Shallow embedding of the NexusTrader decision pipeline: the debate/routing
state machine, the signal extractor's fallback chain, the agent invocation
wrapper's retry policy, the cache layer, the memory store, and the
frontend's SSE consumer (`frontend-ts/src/main.ts`).

The backend Python modules (`app/graph/*`, `app/agents/execution_core.py`,
`app/utils/cache.py`, `app/utils/memory.py`, `app/llm.py`) are present in the
repository only through their design documentation; the definitions below
that embed them are modelled from the spec and are marked as such in their
doc comments.  The frontend TypeScript (`main.ts`) is present in full and is
embedded directly.
-/

namespace NexusTrader

/-! ## Debate Engine / Conditional Router -/

/-- Modelled from the spec: the states of the debate/routing finite-state
machine (`app/graph/agent_graph.py` + `app/graph/conditional_logic.py` are
absent from the sources; spec section 4.6 lists the states). -/
inductive GraphNode
  | ANALYSTS
  | BULL
  | BEAR
  | JUDGE_INVEST
  | RISK_AGGRESSIVE
  | RISK_CONSERVATIVE
  | RISK_NEUTRAL
  | JUDGE_RISK
  | DONE
  deriving DecidableEq, Repr

/-- Modelled from the spec: `InvestDebateState` of `app/graph/state.py`
(absent from the sources): transcript, per-role histories, latest response,
exchange counter, latest speaker. -/
structure InvestDebateState where
  history : List String
  bull_history : List String
  bear_history : List String
  current_response : String
  count : Nat
  latest_speaker : String
  deriving DecidableEq, Repr

/-- Modelled from the spec: `RiskDebateState` of `app/graph/state.py`
(absent from the sources): like the invest state but with three speaker
tracks. -/
structure RiskDebateState where
  history : List String
  aggressive_history : List String
  conservative_history : List String
  neutral_history : List String
  latest_speaker : String
  count : Nat
  final_decision : String
  deriving DecidableEq, Repr

/-- Run-level configuration: loop bounds and the risk-debate flag. -/
structure RunConfig where
  max_debate_rounds : Nat
  max_risk_debate_rounds : Nat
  risk_on : Bool
  deriving DecidableEq, Repr

/-- The machine configuration walked by the router: current node plus the
mutable debate sub-states and judge outputs. -/
structure MachineState where
  node : GraphNode
  invest : InvestDebateState
  risk : RiskDebateState
  investment_plan : String
  final_decision : String
  deriving DecidableEq, Repr

/-- The LLM oracle: an arbitrary response for the agent at a given node,
given the current exchange count.  Routing must not depend on it. -/
def LlmOracle : Type := GraphNode → Nat → String

def initInvest : InvestDebateState :=
  { history := [], bull_history := [], bear_history := [],
    current_response := "", count := 0, latest_speaker := "" }

def initRisk : RiskDebateState :=
  { history := [], aggressive_history := [], conservative_history := [],
    neutral_history := [], latest_speaker := "", count := 0, final_decision := "" }

def initMachine : MachineState :=
  { node := GraphNode.ANALYSTS, invest := initInvest, risk := initRisk,
    investment_plan := "", final_decision := "" }

/-- One bull step on the invest debate state: append to both histories,
increment the counter, record the speaker. -/
def bullSpeak (resp : String) (s : InvestDebateState) : InvestDebateState :=
  { s with history := s.history ++ [resp],
           bull_history := s.bull_history ++ [resp],
           current_response := resp,
           count := s.count + 1,
           latest_speaker := "bull" }

/-- One bear step on the invest debate state. -/
def bearSpeak (resp : String) (s : InvestDebateState) : InvestDebateState :=
  { s with history := s.history ++ [resp],
           bear_history := s.bear_history ++ [resp],
           current_response := resp,
           count := s.count + 1,
           latest_speaker := "bear" }

/-- One aggressive-analyst step on the risk debate state. -/
def aggressiveSpeak (resp : String) (s : RiskDebateState) : RiskDebateState :=
  { s with history := s.history ++ [resp],
           aggressive_history := s.aggressive_history ++ [resp],
           count := s.count + 1,
           latest_speaker := "aggressive" }

/-- One conservative-analyst step on the risk debate state. -/
def conservativeSpeak (resp : String) (s : RiskDebateState) : RiskDebateState :=
  { s with history := s.history ++ [resp],
           conservative_history := s.conservative_history ++ [resp],
           count := s.count + 1,
           latest_speaker := "conservative" }

/-- One neutral-analyst step on the risk debate state. -/
def neutralSpeak (resp : String) (s : RiskDebateState) : RiskDebateState :=
  { s with history := s.history ++ [resp],
           neutral_history := s.neutral_history ++ [resp],
           count := s.count + 1,
           latest_speaker := "neutral" }

/-- Modelled from the spec: one transition of the debate/routing state
machine (spec section 4.6; `should_continue_debate` and
`should_continue_risk_debate` of `app/graph/conditional_logic.py` are absent
from the sources).  From `BULL` always to `BEAR`; from `BEAR` back to `BULL`
while `count < 2 * max_debate_rounds`, else to `JUDGE_INVEST`; the risk loop
rotates aggressive, conservative, neutral while
`count < 3 * max_risk_debate_rounds`; when `risk_on` is unset the router goes
from the invest judge straight to `DONE` (legacy mode). -/
def stepGraph (cfg : RunConfig) (llm : LlmOracle) (s : MachineState) : MachineState :=
  match s.node with
  | GraphNode.ANALYSTS =>
      if s.invest.count < 2 * cfg.max_debate_rounds then
        { s with node := GraphNode.BULL }
      else
        { s with node := GraphNode.JUDGE_INVEST }
  | GraphNode.BULL =>
      { s with invest := bullSpeak (llm GraphNode.BULL s.invest.count) s.invest,
               node := GraphNode.BEAR }
  | GraphNode.BEAR =>
      let inv := bearSpeak (llm GraphNode.BEAR s.invest.count) s.invest
      { s with invest := inv,
               node := if inv.count < 2 * cfg.max_debate_rounds then
                         GraphNode.BULL
                       else
                         GraphNode.JUDGE_INVEST }
  | GraphNode.JUDGE_INVEST =>
      let plan := llm GraphNode.JUDGE_INVEST s.invest.count
      if cfg.risk_on then
        if s.risk.count < 3 * cfg.max_risk_debate_rounds then
          { s with investment_plan := plan, node := GraphNode.RISK_AGGRESSIVE }
        else
          { s with investment_plan := plan, node := GraphNode.JUDGE_RISK }
      else
        { s with investment_plan := plan, node := GraphNode.DONE }
  | GraphNode.RISK_AGGRESSIVE =>
      { s with risk := aggressiveSpeak (llm GraphNode.RISK_AGGRESSIVE s.risk.count) s.risk,
               node := GraphNode.RISK_CONSERVATIVE }
  | GraphNode.RISK_CONSERVATIVE =>
      { s with risk := conservativeSpeak (llm GraphNode.RISK_CONSERVATIVE s.risk.count) s.risk,
               node := GraphNode.RISK_NEUTRAL }
  | GraphNode.RISK_NEUTRAL =>
      let rk := neutralSpeak (llm GraphNode.RISK_NEUTRAL s.risk.count) s.risk
      { s with risk := rk,
               node := if rk.count < 3 * cfg.max_risk_debate_rounds then
                         GraphNode.RISK_AGGRESSIVE
                       else
                         GraphNode.JUDGE_RISK }
  | GraphNode.JUDGE_RISK =>
      { s with final_decision := llm GraphNode.JUDGE_RISK s.risk.count,
               node := GraphNode.DONE }
  | GraphNode.DONE => s

/-- The speaker expected at the i-th exchange of the risk debate:
aggressive, conservative, neutral, repeating. -/
def riskSpeaker (i : Nat) : GraphNode :=
  match i % 3 with
  | 0 => GraphNode.RISK_AGGRESSIVE
  | 1 => GraphNode.RISK_CONSERVATIVE
  | _ => GraphNode.RISK_NEUTRAL

/-! ### Basic step lemmas -/

lemma stepGraph_done (cfg : RunConfig) (llm : LlmOracle) (s : MachineState)
    (h : s.node = GraphNode.DONE) : stepGraph cfg llm s = s := by
  unfold stepGraph
  rw [h]

lemma iterate_done (cfg : RunConfig) (llm : LlmOracle) (s : MachineState)
    (h : s.node = GraphNode.DONE) (n : Nat) :
    (stepGraph cfg llm)^[n] s = s := by
  induction n with
  | zero => rfl
  | succ k ih =>
      rw [Function.iterate_succ_apply, stepGraph_done cfg llm s h, ih]

lemma step_bull (cfg : RunConfig) (llm : LlmOracle) (s : MachineState)
    (h : s.node = GraphNode.BULL) :
    stepGraph cfg llm s =
      { s with invest := bullSpeak (llm GraphNode.BULL s.invest.count) s.invest,
               node := GraphNode.BEAR } := by
  unfold stepGraph
  rw [h]

/-- Two machine steps starting at `BULL` perform one full bull/bear round:
the counter advances by two, the risk state is untouched, and the router
re-enters the loop iff the counter is still below the bound. -/
lemma invest_round (cfg : RunConfig) (llm : LlmOracle) (s : MachineState)
    (h : s.node = GraphNode.BULL) :
    ((stepGraph cfg llm)^[2] s).node =
        (if s.invest.count + 1 + 1 < 2 * cfg.max_debate_rounds then
          GraphNode.BULL else GraphNode.JUDGE_INVEST) ∧
      ((stepGraph cfg llm)^[2] s).invest.count = s.invest.count + 1 + 1 ∧
      ((stepGraph cfg llm)^[2] s).risk = s.risk := by
  have h2 : (stepGraph cfg llm)^[2] s = stepGraph cfg llm (stepGraph cfg llm s) := rfl
  rw [h2, step_bull cfg llm s h]
  unfold stepGraph
  simp [bullSpeak, bearSpeak]

/-- The invest debate loop: from `BULL` with `2 * n` exchanges left before
the bound, `2 * n` steps land on `JUDGE_INVEST` with the counter at exactly
`2 * max_debate_rounds` and the risk state untouched. -/
lemma invest_loop (cfg : RunConfig) (llm : LlmOracle) :
    ∀ n s, s.node = GraphNode.BULL →
      s.invest.count + 2 * n = 2 * cfg.max_debate_rounds → 1 ≤ n →
      ((stepGraph cfg llm)^[2 * n] s).node = GraphNode.JUDGE_INVEST ∧
      ((stepGraph cfg llm)^[2 * n] s).invest.count = 2 * cfg.max_debate_rounds ∧
      ((stepGraph cfg llm)^[2 * n] s).risk = s.risk := by
  intro n
  induction n with
  | zero => intro s _ _ hn; exact absurd hn (by omega)
  | succ k ih =>
      intro s hnode hcount _
      have he : 2 * (k + 1) = 2 * k + 2 := by ring
      have hsplit : (stepGraph cfg llm)^[2 * (k + 1)] s
          = (stepGraph cfg llm)^[2 * k] ((stepGraph cfg llm)^[2] s) := by
        rw [he, Function.iterate_add_apply]
      obtain ⟨kn, kc, kr⟩ := invest_round cfg llm s hnode
      rcases Nat.eq_zero_or_pos k with hk | hk
      · subst hk
        have hcond : ¬ (s.invest.count + 1 + 1 < 2 * cfg.max_debate_rounds) := by omega
        rw [if_neg hcond] at kn
        rw [hsplit]
        simpa using ⟨kn, kc.trans (by omega), kr⟩
      · have hcond : s.invest.count + 1 + 1 < 2 * cfg.max_debate_rounds := by omega
        rw [if_pos hcond] at kn
        have := ih ((stepGraph cfg llm)^[2] s) kn (by omega) hk
        rw [hsplit]
        exact ⟨this.1, this.2.1, this.2.2.trans kr⟩

lemma step_aggressive (cfg : RunConfig) (llm : LlmOracle) (s : MachineState)
    (h : s.node = GraphNode.RISK_AGGRESSIVE) :
    stepGraph cfg llm s =
      { s with risk := aggressiveSpeak (llm GraphNode.RISK_AGGRESSIVE s.risk.count) s.risk,
               node := GraphNode.RISK_CONSERVATIVE } := by
  unfold stepGraph
  rw [h]

lemma riskSpeaker_add_three (i : Nat) : riskSpeaker (i + 3) = riskSpeaker i := by
  unfold riskSpeaker
  rw [Nat.add_mod_right]

/-- Three machine steps starting at the aggressive analyst perform one full
risk rotation: aggressive, then conservative, then neutral; the counter
advances by three, the invest state is untouched, and the router re-enters
the loop iff the counter is still below the bound. -/
lemma risk_round (cfg : RunConfig) (llm : LlmOracle) (s : MachineState)
    (h : s.node = GraphNode.RISK_AGGRESSIVE) :
    ((stepGraph cfg llm)^[1] s).node = GraphNode.RISK_CONSERVATIVE ∧
      ((stepGraph cfg llm)^[2] s).node = GraphNode.RISK_NEUTRAL ∧
      ((stepGraph cfg llm)^[3] s).node =
        (if s.risk.count + 1 + 1 + 1 < 3 * cfg.max_risk_debate_rounds then
          GraphNode.RISK_AGGRESSIVE else GraphNode.JUDGE_RISK) ∧
      ((stepGraph cfg llm)^[3] s).risk.count = s.risk.count + 1 + 1 + 1 ∧
      ((stepGraph cfg llm)^[3] s).invest = s.invest := by
  have h1 : (stepGraph cfg llm)^[1] s = stepGraph cfg llm s := rfl
  have h2 : (stepGraph cfg llm)^[2] s = stepGraph cfg llm (stepGraph cfg llm s) := rfl
  have h3 : (stepGraph cfg llm)^[3] s
      = stepGraph cfg llm (stepGraph cfg llm (stepGraph cfg llm s)) := rfl
  rw [h1, h2, h3, step_aggressive cfg llm s h]
  refine ⟨rfl, rfl, ?_, ?_, ?_⟩ <;>
    simp [stepGraph, aggressiveSpeak, conservativeSpeak, neutralSpeak]

/-- The risk debate loop: from the aggressive analyst with `3 * n` exchanges
left before the bound, the speakers rotate aggressive, conservative, neutral
on every step, and `3 * n` steps land on `JUDGE_RISK` with the counter at
exactly `3 * max_risk_debate_rounds` and the invest state untouched. -/
lemma risk_loop (cfg : RunConfig) (llm : LlmOracle) :
    ∀ n s, s.node = GraphNode.RISK_AGGRESSIVE →
      s.risk.count + 3 * n = 3 * cfg.max_risk_debate_rounds → 1 ≤ n →
      ((stepGraph cfg llm)^[3 * n] s).node = GraphNode.JUDGE_RISK ∧
      ((stepGraph cfg llm)^[3 * n] s).risk.count = 3 * cfg.max_risk_debate_rounds ∧
      ((stepGraph cfg llm)^[3 * n] s).invest = s.invest ∧
      ∀ i, i < 3 * n → ((stepGraph cfg llm)^[i] s).node = riskSpeaker i := by
  intro n
  induction n with
  | zero => intro s _ _ hn; exact absurd hn (by omega)
  | succ k ih =>
      intro s hnode hcount _
      obtain ⟨r1, r2, r3, rc, rinv⟩ := risk_round cfg llm s hnode
      have he : 3 * (k + 1) = 3 * k + 3 := by ring
      have hsplit : (stepGraph cfg llm)^[3 * (k + 1)] s
          = (stepGraph cfg llm)^[3 * k] ((stepGraph cfg llm)^[3] s) := by
        rw [he, Function.iterate_add_apply]
      have base_trace : ∀ i, i < 3 → ((stepGraph cfg llm)^[i] s).node = riskSpeaker i := by
        intro i hi
        interval_cases i
        · simpa [riskSpeaker] using hnode
        · simpa [riskSpeaker] using r1
        · simpa [riskSpeaker] using r2
      rcases Nat.eq_zero_or_pos k with hk | hk
      · subst hk
        have hcond : ¬ (s.risk.count + 1 + 1 + 1 < 3 * cfg.max_risk_debate_rounds) := by
          omega
        rw [if_neg hcond] at r3
        rw [hsplit]
        refine ⟨by simpa using r3, by simpa using rc.trans (by omega),
          by simpa using rinv, ?_⟩
        simpa using base_trace
      · have hcond : s.risk.count + 1 + 1 + 1 < 3 * cfg.max_risk_debate_rounds := by omega
        rw [if_pos hcond] at r3
        have hih := ih ((stepGraph cfg llm)^[3] s) r3 (by omega) hk
        rw [hsplit]
        refine ⟨hih.1, hih.2.1, hih.2.2.1.trans rinv, ?_⟩
        intro i hi
        rcases Nat.lt_or_ge i 3 with hi3 | hi3
        · exact base_trace i hi3
        · obtain ⟨j, rfl⟩ : ∃ j, i = j + 3 := ⟨i - 3, by omega⟩
          rw [Function.iterate_add_apply, riskSpeaker_add_three]
          exact hih.2.2.2 j (by omega)

lemma step_analysts (cfg : RunConfig) (llm : LlmOracle) (s : MachineState)
    (h : s.node = GraphNode.ANALYSTS) :
    stepGraph cfg llm s =
      if s.invest.count < 2 * cfg.max_debate_rounds then
        { s with node := GraphNode.BULL }
      else
        { s with node := GraphNode.JUDGE_INVEST } := by
  unfold stepGraph
  rw [h]

lemma step_judge_invest (cfg : RunConfig) (llm : LlmOracle) (s : MachineState)
    (h : s.node = GraphNode.JUDGE_INVEST) :
    stepGraph cfg llm s =
      if cfg.risk_on then
        (if s.risk.count < 3 * cfg.max_risk_debate_rounds then
          { s with investment_plan := llm GraphNode.JUDGE_INVEST s.invest.count,
                   node := GraphNode.RISK_AGGRESSIVE }
         else
          { s with investment_plan := llm GraphNode.JUDGE_INVEST s.invest.count,
                   node := GraphNode.JUDGE_RISK })
      else
        { s with investment_plan := llm GraphNode.JUDGE_INVEST s.invest.count,
                 node := GraphNode.DONE } := by
  unfold stepGraph
  rw [h]

lemma step_judge_invest_risk_on (cfg : RunConfig) (llm : LlmOracle) (s : MachineState)
    (hr : cfg.risk_on = true) (h : s.node = GraphNode.JUDGE_INVEST) :
    stepGraph cfg llm s =
      if s.risk.count < 3 * cfg.max_risk_debate_rounds then
        { s with investment_plan := llm GraphNode.JUDGE_INVEST s.invest.count,
                 node := GraphNode.RISK_AGGRESSIVE }
      else
        { s with investment_plan := llm GraphNode.JUDGE_INVEST s.invest.count,
                 node := GraphNode.JUDGE_RISK } := by
  rw [step_judge_invest cfg llm s h, hr]
  simp

lemma step_judge_invest_legacy (cfg : RunConfig) (llm : LlmOracle) (s : MachineState)
    (hr : cfg.risk_on = false) (h : s.node = GraphNode.JUDGE_INVEST) :
    stepGraph cfg llm s =
      { s with investment_plan := llm GraphNode.JUDGE_INVEST s.invest.count,
               node := GraphNode.DONE } := by
  rw [step_judge_invest cfg llm s h, hr]
  simp

lemma step_judge_risk (cfg : RunConfig) (llm : LlmOracle) (s : MachineState)
    (h : s.node = GraphNode.JUDGE_RISK) :
    stepGraph cfg llm s =
      { s with final_decision := llm GraphNode.JUDGE_RISK s.risk.count,
               node := GraphNode.DONE } := by
  unfold stepGraph
  rw [h]

/-- From the initial state, `2 * max_debate_rounds + 1` steps land exactly on
`JUDGE_INVEST` with the invest counter at `2 * max_debate_rounds`, the risk
state untouched, and (for zero rounds) an untouched invest state. -/
lemma reach_judge_invest (cfg : RunConfig) (llm : LlmOracle) :
    ((stepGraph cfg llm)^[2 * cfg.max_debate_rounds + 1] initMachine).node
        = GraphNode.JUDGE_INVEST ∧
    ((stepGraph cfg llm)^[2 * cfg.max_debate_rounds + 1] initMachine).invest.count
        = 2 * cfg.max_debate_rounds ∧
    ((stepGraph cfg llm)^[2 * cfg.max_debate_rounds + 1] initMachine).risk = initRisk ∧
    (cfg.max_debate_rounds = 0 →
      ((stepGraph cfg llm)^[2 * cfg.max_debate_rounds + 1] initMachine).invest
        = initInvest) := by
  rcases Nat.eq_zero_or_pos cfg.max_debate_rounds with hd | hd
  · have h1 : (stepGraph cfg llm)^[2 * cfg.max_debate_rounds + 1] initMachine
        = stepGraph cfg llm initMachine := by
      rw [hd]
      norm_num
    have h2 : stepGraph cfg llm initMachine
        = { initMachine with node := GraphNode.JUDGE_INVEST } := by
      rw [step_analysts cfg llm initMachine rfl, hd]
      simp [initMachine, initInvest]
    rw [h1, h2]
    exact ⟨rfl, by simp [initMachine, initInvest, hd], rfl, fun _ => rfl⟩
  · have hsplit : (stepGraph cfg llm)^[2 * cfg.max_debate_rounds + 1] initMachine
        = (stepGraph cfg llm)^[2 * cfg.max_debate_rounds]
            ((stepGraph cfg llm)^[1] initMachine) := by
      rw [Function.iterate_add_apply]
    have hc : initMachine.invest.count < 2 * cfg.max_debate_rounds := by
      show 0 < 2 * cfg.max_debate_rounds
      omega
    have h2 : (stepGraph cfg llm)^[1] initMachine
        = { initMachine with node := GraphNode.BULL } := by
      rw [Function.iterate_one, step_analysts cfg llm initMachine rfl, if_pos hc]
    have hloop := invest_loop cfg llm cfg.max_debate_rounds
      { initMachine with node := GraphNode.BULL } rfl
      (by show 0 + 2 * cfg.max_debate_rounds = 2 * cfg.max_debate_rounds; omega) hd
    rw [hsplit, h2]
    exact ⟨hloop.1, hloop.2.1, hloop.2.2, fun h0 => absurd h0 (by omega)⟩

/-- From the initial state with the risk flag set,
`2 * max_debate_rounds + 2 + 3 * max_risk_debate_rounds` steps land exactly
on `JUDGE_RISK` with the risk counter at `3 * max_risk_debate_rounds`, the
three risk speakers having rotated aggressive, conservative, neutral. -/
lemma reach_judge_risk (cfg : RunConfig) (llm : LlmOracle) (hr : cfg.risk_on = true) :
    ((stepGraph cfg llm)^[2 * cfg.max_debate_rounds + 2 + 3 * cfg.max_risk_debate_rounds]
        initMachine).node = GraphNode.JUDGE_RISK ∧
    ((stepGraph cfg llm)^[2 * cfg.max_debate_rounds + 2 + 3 * cfg.max_risk_debate_rounds]
        initMachine).risk.count = 3 * cfg.max_risk_debate_rounds ∧
    ∀ i, i < 3 * cfg.max_risk_debate_rounds →
      ((stepGraph cfg llm)^[2 * cfg.max_debate_rounds + 2 + i] initMachine).node
        = riskSpeaker i := by
  obtain ⟨j1, j2, j3, _⟩ := reach_judge_invest cfg llm
  have hs2 : (stepGraph cfg llm)^[2 * cfg.max_debate_rounds + 2] initMachine
      = stepGraph cfg llm
          ((stepGraph cfg llm)^[2 * cfg.max_debate_rounds + 1] initMachine) := by
    have he : 2 * cfg.max_debate_rounds + 2 = 1 + (2 * cfg.max_debate_rounds + 1) := by
      ring
    rw [he, Function.iterate_add_apply, Function.iterate_one]
  rcases Nat.eq_zero_or_pos cfg.max_risk_debate_rounds with hr0 | hr1
  · have hcond : ¬ (((stepGraph cfg llm)^[2 * cfg.max_debate_rounds + 1]
        initMachine).risk.count < 3 * cfg.max_risk_debate_rounds) := by
      rw [j3, hr0]
      simp [initRisk]
    have hnode : ((stepGraph cfg llm)^[2 * cfg.max_debate_rounds + 2]
        initMachine).node = GraphNode.JUDGE_RISK := by
      rw [hs2, step_judge_invest_risk_on cfg llm _ hr j1, if_neg hcond]
    have hcnt : ((stepGraph cfg llm)^[2 * cfg.max_debate_rounds + 2]
        initMachine).risk.count = 3 * cfg.max_risk_debate_rounds := by
      rw [hs2, step_judge_invest_risk_on cfg llm _ hr j1, if_neg hcond]
      show ((stepGraph cfg llm)^[2 * cfg.max_debate_rounds + 1]
        initMachine).risk.count = 3 * cfg.max_risk_debate_rounds
      rw [j3, hr0]
      simp [initRisk]
    have hE : 2 * cfg.max_debate_rounds + 2 + 3 * cfg.max_risk_debate_rounds
        = 2 * cfg.max_debate_rounds + 2 := by omega
    rw [hE]
    exact ⟨hnode, hcnt, fun i hi => absurd hi (by omega)⟩
  · have hcond : ((stepGraph cfg llm)^[2 * cfg.max_debate_rounds + 1]
        initMachine).risk.count < 3 * cfg.max_risk_debate_rounds := by
      rw [j3]
      show 0 < 3 * cfg.max_risk_debate_rounds
      omega
    have hnode : ((stepGraph cfg llm)^[2 * cfg.max_debate_rounds + 2]
        initMachine).node = GraphNode.RISK_AGGRESSIVE := by
      rw [hs2, step_judge_invest_risk_on cfg llm _ hr j1, if_pos hcond]
    have hrisk2 : ((stepGraph cfg llm)^[2 * cfg.max_debate_rounds + 2]
        initMachine).risk = initRisk := by
      rw [hs2, step_judge_invest_risk_on cfg llm _ hr j1, if_pos hcond]
      exact j3
    have hloop := risk_loop cfg llm cfg.max_risk_debate_rounds
      ((stepGraph cfg llm)^[2 * cfg.max_debate_rounds + 2] initMachine)
      hnode (by rw [hrisk2]; show 0 + 3 * cfg.max_risk_debate_rounds = _; omega)
      hr1
    have hcomp : (stepGraph cfg llm)^[2 * cfg.max_debate_rounds + 2
          + 3 * cfg.max_risk_debate_rounds] initMachine
        = (stepGraph cfg llm)^[3 * cfg.max_risk_debate_rounds]
            ((stepGraph cfg llm)^[2 * cfg.max_debate_rounds + 2] initMachine) := by
      have he : 2 * cfg.max_debate_rounds + 2 + 3 * cfg.max_risk_debate_rounds
          = 3 * cfg.max_risk_debate_rounds + (2 * cfg.max_debate_rounds + 2) := by
        ring
      rw [he, Function.iterate_add_apply]
    refine ⟨by rw [hcomp]; exact hloop.1, by rw [hcomp]; exact hloop.2.1, ?_⟩
    intro i hi
    have he : 2 * cfg.max_debate_rounds + 2 + i
        = i + (2 * cfg.max_debate_rounds + 2) := by ring
    rw [he, Function.iterate_add_apply]
    exact hloop.2.2.2 i hi

/-- From the initial state, `2 * max_debate_rounds + 3 * max_risk_debate_rounds + 3`
steps always land on `DONE`, whatever the LLM responses and flags. -/
lemma reach_done (cfg : RunConfig) (llm : LlmOracle) :
    ((stepGraph cfg llm)^[2 * cfg.max_debate_rounds + 3 * cfg.max_risk_debate_rounds + 3]
        initMachine).node = GraphNode.DONE := by
  cases hr : cfg.risk_on with
  | false =>
    -- legacy mode: the invest judge routes straight to DONE
    obtain ⟨j1, _, _, _⟩ := reach_judge_invest cfg llm
    have hs2 : (stepGraph cfg llm)^[2 * cfg.max_debate_rounds + 2] initMachine
        = stepGraph cfg llm
            ((stepGraph cfg llm)^[2 * cfg.max_debate_rounds + 1] initMachine) := by
      have he : 2 * cfg.max_debate_rounds + 2 = 1 + (2 * cfg.max_debate_rounds + 1) := by
        ring
      rw [he, Function.iterate_add_apply, Function.iterate_one]
    have hdone : ((stepGraph cfg llm)^[2 * cfg.max_debate_rounds + 2]
        initMachine).node = GraphNode.DONE := by
      rw [hs2, step_judge_invest_legacy cfg llm _ hr j1]
    have he : 2 * cfg.max_debate_rounds + 3 * cfg.max_risk_debate_rounds + 3
        = (3 * cfg.max_risk_debate_rounds + 1) + (2 * cfg.max_debate_rounds + 2) := by
      ring
    rw [he, Function.iterate_add_apply, iterate_done cfg llm _ hdone]
    exact hdone
  | true =>
    obtain ⟨k1, _, _⟩ := reach_judge_risk cfg llm hr
    have he : 2 * cfg.max_debate_rounds + 3 * cfg.max_risk_debate_rounds + 3
        = 1 + (2 * cfg.max_debate_rounds + 2 + 3 * cfg.max_risk_debate_rounds) := by
      ring
    rw [he, Function.iterate_add_apply, Function.iterate_one,
      step_judge_risk cfg llm _ k1]

/-! ## Claims about the debate/routing state machine -/

/-- C1: for every run configuration with integer loop bounds
`max_debate_rounds >= 0` and `max_risk_debate_rounds >= 0`, the
debate/routing state machine reaches `DONE` within
`2 * max_debate_rounds + 3 * max_risk_debate_rounds + 3` steps — a bound
linear in `max_debate_rounds + max_risk_debate_rounds` — regardless of the
content of any LLM response. -/
theorem claim1_router_reaches_done (cfg : RunConfig) (llm : LlmOracle) (n : Nat)
    (hn : 2 * cfg.max_debate_rounds + 3 * cfg.max_risk_debate_rounds + 3 ≤ n) :
    ((stepGraph cfg llm)^[n] initMachine).node = GraphNode.DONE := by
  have hT := reach_done cfg llm
  have he : n
      = (n - (2 * cfg.max_debate_rounds + 3 * cfg.max_risk_debate_rounds + 3))
        + (2 * cfg.max_debate_rounds + 3 * cfg.max_risk_debate_rounds + 3) := by
    omega
  rw [he, Function.iterate_add_apply, iterate_done cfg llm _ hT]
  exact hT

theorem claim1_router_reaches_done_witness :
    2 * (1 : Nat) + 3 * 1 + 3 ≤ 8 ∧
    ((stepGraph { max_debate_rounds := 1, max_risk_debate_rounds := 1, risk_on := true }
        (fun _ _ => "argue"))^[8] initMachine).node = GraphNode.DONE :=
  ⟨by decide,
   claim1_router_reaches_done
     { max_debate_rounds := 1, max_risk_debate_rounds := 1, risk_on := true }
     (fun _ _ => "argue") 8 (by decide)⟩

/-- C2: for every `max_debate_rounds` (in particular 0, 1, 2, 3) and every
LLM output, the investment debate loop terminates: after
`2 * max_debate_rounds + 1` router steps the machine sits at `JUDGE_INVEST`
with `InvestDebateState.count` exactly `2 * max_debate_rounds`; when
`max_debate_rounds = 0` the loop is skipped entirely and the judge is
reached after the single analyst step with count 0 and an empty transcript. -/
theorem claim2_invest_debate_count (cfg : RunConfig) (llm : LlmOracle) :
    ((stepGraph cfg llm)^[2 * cfg.max_debate_rounds + 1] initMachine).node
        = GraphNode.JUDGE_INVEST ∧
    ((stepGraph cfg llm)^[2 * cfg.max_debate_rounds + 1] initMachine).invest.count
        = 2 * cfg.max_debate_rounds ∧
    (cfg.max_debate_rounds = 0 →
      ((stepGraph cfg llm)^[1] initMachine).node = GraphNode.JUDGE_INVEST ∧
      ((stepGraph cfg llm)^[1] initMachine).invest.count = 0 ∧
      ((stepGraph cfg llm)^[1] initMachine).invest.history = []) := by
  obtain ⟨a, b, _, d0⟩ := reach_judge_invest cfg llm
  refine ⟨a, b, fun h0 => ?_⟩
  have h1 : 2 * cfg.max_debate_rounds + 1 = 1 := by omega
  rw [h1] at a b d0
  exact ⟨a, by rw [b, h0], by rw [d0 h0]; simp [initInvest]⟩

theorem claim2_invest_debate_count_witness :
    ((stepGraph { max_debate_rounds := 0, max_risk_debate_rounds := 1, risk_on := true }
        (fun _ _ => "argue"))^[1] initMachine).node = GraphNode.JUDGE_INVEST ∧
    ((stepGraph { max_debate_rounds := 0, max_risk_debate_rounds := 1, risk_on := true }
        (fun _ _ => "argue"))^[1] initMachine).invest.count = 0 ∧
    ((stepGraph { max_debate_rounds := 0, max_risk_debate_rounds := 1, risk_on := true }
        (fun _ _ => "argue"))^[1] initMachine).invest.history = [] :=
  (claim2_invest_debate_count
    { max_debate_rounds := 0, max_risk_debate_rounds := 1, risk_on := true }
    (fun _ _ => "argue")).2.2 rfl

/-- C3: for every `max_risk_debate_rounds >= 0`, when the `risk_on` flag is
set the speakers of the risk debate rotate aggressive, conservative,
neutral (the i-th exchange is run by `riskSpeaker i`), and at the moment
`JUDGE_RISK` executes `RiskDebateState.count` equals exactly
`3 * max_risk_debate_rounds`. -/
theorem claim3_risk_debate_rotation (cfg : RunConfig) (llm : LlmOracle)
    (hr : cfg.risk_on = true) :
    ((stepGraph cfg llm)^[2 * cfg.max_debate_rounds + 2 + 3 * cfg.max_risk_debate_rounds]
        initMachine).node = GraphNode.JUDGE_RISK ∧
    ((stepGraph cfg llm)^[2 * cfg.max_debate_rounds + 2 + 3 * cfg.max_risk_debate_rounds]
        initMachine).risk.count = 3 * cfg.max_risk_debate_rounds ∧
    (∀ i, i < 3 * cfg.max_risk_debate_rounds →
      ((stepGraph cfg llm)^[2 * cfg.max_debate_rounds + 2 + i] initMachine).node
        = riskSpeaker i) ∧
    riskSpeaker 0 = GraphNode.RISK_AGGRESSIVE ∧
    riskSpeaker 1 = GraphNode.RISK_CONSERVATIVE ∧
    riskSpeaker 2 = GraphNode.RISK_NEUTRAL := by
  obtain ⟨a, b, c⟩ := reach_judge_risk cfg llm hr
  exact ⟨a, b, c, rfl, rfl, rfl⟩

theorem claim3_risk_debate_rotation_witness :
    ({ max_debate_rounds := 1, max_risk_debate_rounds := 1, risk_on := true }
        : RunConfig).risk_on = true ∧
    ((stepGraph { max_debate_rounds := 1, max_risk_debate_rounds := 1, risk_on := true }
        (fun _ _ => "argue"))^[2 * 1 + 2 + 3 * 1] initMachine).node
      = GraphNode.JUDGE_RISK :=
  ⟨rfl,
   (claim3_risk_debate_rotation
     { max_debate_rounds := 1, max_risk_debate_rounds := 1, risk_on := true }
     (fun _ _ => "argue") rfl).1⟩

/-! ## Signal Extractor -/

/-- The closed label set produced by the signal extractor. -/
inductive Signal
  | BUY
  | SELL
  | HOLD
  deriving DecidableEq, Repr

/-- Boolean test that the first list is a prefix of the second. -/
def startsWithList : List Char → List Char → Bool
  | [], _ => true
  | _ :: _, [] => false
  | a :: as, b :: bs => a == b && startsWithList as bs

/-- Boolean contiguous-substring test. -/
def containsList (pat : List Char) : List Char → Bool
  | [] => startsWithList pat []
  | c :: cs => startsWithList pat (c :: cs) || containsList pat cs

/-- Case-insensitive substring test on strings. -/
def lcContains (hay pat : String) : Bool :=
  containsList (pat.data.map Char.toLower) (hay.data.map Char.toLower)

/-- Modelled from the spec: stage 1 of `extract_signal`
(`app/agents/execution_core.py`, absent from the sources) — the
structured-parse stage looks for an embedded JSON decision object whose
action field names one of the three labels. -/
def parseStructured (text : String) : Option Signal :=
  if lcContains text "\"action\": \"buy\"" then some Signal.BUY
  else if lcContains text "\"action\": \"sell\"" then some Signal.SELL
  else if lcContains text "\"action\": \"hold\"" then some Signal.HOLD
  else none

/-- Modelled from the spec: stage 3 of `extract_signal` — the last-resort
keyword scan for explicit label words over the original text; ambiguous
(multiple or no label words) yields no result. -/
def keywordScan (text : String) : Option Signal :=
  match lcContains text "buy", lcContains text "sell", lcContains text "hold" with
  | true, false, false => some Signal.BUY
  | false, true, false => some Signal.SELL
  | false, false, true => some Signal.HOLD
  | _, _, _ => none

/-- Modelled from the spec: validation of the model-assisted stage's
response — accept an exact single-token label, otherwise (per the signal
extractor design notes) check whether a label keyword is contained, else
fail. -/
def validateLabel (resp : String) : Option Signal :=
  let r := String.mk (resp.data.map Char.toLower)
  if r == "buy" then some Signal.BUY
  else if r == "sell" then some Signal.SELL
  else if r == "hold" then some Signal.HOLD
  else keywordScan resp

/-- Modelled from the spec: stage 2 of `extract_signal` — invoke the LLM
with the constrained extraction prompt; `none` stands for an invocation
that failed (after retries) or returned unusable output. -/
def modelAssisted (llm : String → Option String) (text : String) : Option Signal :=
  match llm text with
  | none => none
  | some resp => validateLabel resp

/-- Modelled from the spec: `extract_signal(text, ticker)` of
`app/agents/execution_core.py` (absent from the sources) — the
deterministic fallback chain of spec section 4.4: structured parse, then
model-assisted extraction, then keyword scan, then the HOLD default.  The
embedding is a total function into the closed label set: every failure of
a stage falls through to the next, as the documented double-fallback
requires. -/
def extract_signal (llm : String → Option String) (text ticker : String) : Signal :=
  match parseStructured text with
  | some sg => sg
  | none =>
    match modelAssisted llm text with
    | some sg => sg
    | none =>
      match keywordScan text with
      | some sg => sg
      | none => Signal.HOLD

/-- Modelled from the spec: the intended behavior of the constrained
extraction prompt of stage 2 — a synonym-aware single-token answer
("accumulate" counts toward BUY, "reduce" toward SELL, "wait" toward HOLD),
with no answer on ambiguous or signal-free text. -/
def specSynonymOracle (text : String) : Option String :=
  match lcContains text "buy" || lcContains text "accumulate",
        lcContains text "sell" || lcContains text "reduce",
        lcContains text "hold" || lcContains text "wait" with
  | true, false, false => some "BUY"
  | false, true, false => some "SELL"
  | false, false, true => some "HOLD"
  | _, _, _ => none

/-- The apostrophe character, kept out of string literals. -/
def apostrophe : Char := Char.ofNat 39

/-- The fourth test input of the spec's extractor properties. -/
def waitAndSeeText : String := "let" ++ apostrophe.toString ++ "s wait and see"

/-! ## Claims about the signal extractor -/

/-- C4: for every input text, context label and LLM behavior, `extract_signal`
returns exactly one of the three labels BUY, SELL, HOLD (in the embedding it
is a total function into the closed label set — the documented
double-fallback never lets an exception reach the caller), and when every
fallback stage fails or is ambiguous it returns HOLD. -/
theorem claim4_extract_total_default_hold (llm : String → Option String)
    (text ticker : String) :
    (extract_signal llm text ticker = Signal.BUY ∨
     extract_signal llm text ticker = Signal.SELL ∨
     extract_signal llm text ticker = Signal.HOLD) ∧
    (parseStructured text = none → modelAssisted llm text = none →
      keywordScan text = none → extract_signal llm text ticker = Signal.HOLD) := by
  constructor
  · cases h : extract_signal llm text ticker
    · exact Or.inl rfl
    · exact Or.inr (Or.inl rfl)
    · exact Or.inr (Or.inr rfl)
  · intro h1 h2 h3
    unfold extract_signal
    rw [h1, h2, h3]

theorem claim4_extract_total_default_hold_witness :
    parseStructured "no decision here" = none ∧
    modelAssisted (fun _ => none) "no decision here" = none ∧
    keywordScan "no decision here" = none ∧
    extract_signal (fun _ => none) "no decision here" "NVDA" = Signal.HOLD :=
  ⟨rfl, rfl, rfl,
   (claim4_extract_total_default_hold (fun _ => none) "no decision here" "NVDA").2
     rfl rfl rfl⟩

/-- C5: the concrete input/output pairs of the spec's testable properties,
with the model-assisted stage behaving as the spec's synonym-aware prompt
dictates: explicit BUY, "accumulate" as BUY, "reduce" as SELL,
"wait and see" as HOLD, and the empty input defaulting to HOLD. -/
theorem claim5_extract_concrete_pairs :
    extract_signal specSynonymOracle "I recommend BUY this stock" "Unknown"
        = Signal.BUY ∧
    extract_signal specSynonymOracle "we should accumulate shares" "Unknown"
        = Signal.BUY ∧
    extract_signal specSynonymOracle "reduce the position immediately" "Unknown"
        = Signal.SELL ∧
    extract_signal specSynonymOracle waitAndSeeText "Unknown" = Signal.HOLD ∧
    extract_signal specSynonymOracle "" "Unknown" = Signal.HOLD := by
  refine ⟨?_, ?_, ?_, ?_, ?_⟩ <;> decide

/-! ## Agent Invocation Wrapper -/

/-- Modelled from the spec: the outcome of one underlying LLM call as seen
by `invoke_llm` of `app/llm.py` (absent from the sources): success, a
rate-limit error carrying the server-suggested retry delay parsed from the
error message, or a terminal model error. -/
inductive LLMAttempt
  | success (text : String)
  | rateLimited (retry_after : Nat)
  | modelError
  deriving DecidableEq, Repr

/-- The failure modes `invoke_llm` can propagate to its caller. -/
inductive InvokeError
  | rateLimitExhausted
  | modelError
  deriving DecidableEq, Repr

/-- Result of `invoke_llm`: either the response text or a propagated failure. -/
inductive InvokeOutcome
  | ok (text : String)
  | failed (e : InvokeError)
  deriving DecidableEq, Repr

/-- Observable trace of one `invoke_llm` call: its result, the number of
underlying invocations made, and the delays slept before each retry. -/
structure InvokeTrace where
  result : InvokeOutcome
  calls : Nat
  sleeps : List Nat
  deriving DecidableEq, Repr

/-- Modelled from the spec: the retry loop of
`invoke_llm(prompt, max_retries=3)` — `responses k` is the outcome of the
k-th underlying call; on a rate limit with remaining budget the wrapper
sleeps for the parsed delay and retries, otherwise the failure propagates. -/
def invokeFrom (responses : Nat → LLMAttempt) : Nat → Nat → InvokeTrace
  | 0, _ =>
      { result := InvokeOutcome.failed InvokeError.rateLimitExhausted,
        calls := 0, sleeps := [] }
  | fuel + 1, k =>
      match responses k with
      | LLMAttempt.success t => { result := InvokeOutcome.ok t, calls := 1, sleeps := [] }
      | LLMAttempt.modelError =>
          { result := InvokeOutcome.failed InvokeError.modelError,
            calls := 1, sleeps := [] }
      | LLMAttempt.rateLimited d =>
          if fuel = 0 then
            { result := InvokeOutcome.failed InvokeError.rateLimitExhausted,
              calls := 1, sleeps := [] }
          else
            let rest := invokeFrom responses fuel (k + 1)
            { result := rest.result, calls := rest.calls + 1, sleeps := d :: rest.sleeps }

/-- The fixed retry budget of the wrapper. -/
def max_retries : Nat := 3

/-- Modelled from the spec: `invoke_llm` with its default budget of 3
attempts. -/
def invoke_llm (responses : Nat → LLMAttempt) : InvokeTrace :=
  invokeFrom responses max_retries 0

lemma invokeFrom_zero (rs : Nat → LLMAttempt) (k : Nat) :
    invokeFrom rs 0 k
      = { result := InvokeOutcome.failed InvokeError.rateLimitExhausted,
          calls := 0, sleeps := [] } := rfl

lemma invokeFrom_succ (rs : Nat → LLMAttempt) (fuel k : Nat) :
    invokeFrom rs (fuel + 1) k
      = match rs k with
        | LLMAttempt.success t => { result := InvokeOutcome.ok t, calls := 1, sleeps := [] }
        | LLMAttempt.modelError =>
            { result := InvokeOutcome.failed InvokeError.modelError,
              calls := 1, sleeps := [] }
        | LLMAttempt.rateLimited d =>
            if fuel = 0 then
              { result := InvokeOutcome.failed InvokeError.rateLimitExhausted,
                calls := 1, sleeps := [] }
            else
              let rest := invokeFrom rs fuel (k + 1)
              { result := rest.result, calls := rest.calls + 1,
                sleeps := d :: rest.sleeps } := rfl

lemma invokeFrom_calls_le (rs : Nat → LLMAttempt) :
    ∀ fuel k, (invokeFrom rs fuel k).calls ≤ fuel := by
  intro fuel
  induction fuel with
  | zero => intro k; exact Nat.le.refl
  | succ f ih =>
      intro k
      rw [invokeFrom_succ]
      cases h : rs k with
      | success t => simp
      | modelError => simp
      | rateLimited d =>
          by_cases hf : f = 0
          · simp [hf]
          · have hrec := ih (k + 1)
            simp only [if_neg hf]
            show (invokeFrom rs f (k + 1)).calls + 1 ≤ f + 1
            omega

/-! ## Claims about the invocation wrapper -/

/-- C6: the wrapper makes at most 3 underlying attempts for any response
behavior; when every attempt is rate-limited it sleeps for each parsed
server-suggested delay before retrying and then propagates the failure to
the caller after exactly 3 attempts; a rate limit followed by a success is
retried after sleeping the parsed delay and succeeds on the second attempt. -/
theorem claim6_invoke_retry_bounded :
    (∀ rs : Nat → LLMAttempt, (invoke_llm rs).calls ≤ max_retries) ∧
    (∀ (rs : Nat → LLMAttempt) (d : Nat → Nat),
      rs 0 = LLMAttempt.rateLimited (d 0) →
      rs 1 = LLMAttempt.rateLimited (d 1) →
      rs 2 = LLMAttempt.rateLimited (d 2) →
      invoke_llm rs
        = { result := InvokeOutcome.failed InvokeError.rateLimitExhausted,
            calls := 3, sleeps := [d 0, d 1] }) ∧
    (∀ (rs : Nat → LLMAttempt) (d0 : Nat) (t : String),
      rs 0 = LLMAttempt.rateLimited d0 →
      rs 1 = LLMAttempt.success t →
      invoke_llm rs
        = { result := InvokeOutcome.ok t, calls := 2, sleeps := [d0] }) := by
  refine ⟨fun rs => invokeFrom_calls_le rs max_retries 0, ?_, ?_⟩
  · intro rs d h0 h1 h2
    have s1 : invokeFrom rs 1 2
        = { result := InvokeOutcome.failed InvokeError.rateLimitExhausted,
            calls := 1, sleeps := [] } := by
      rw [show (1 : Nat) = 0 + 1 from rfl, invokeFrom_succ, h2]
      simp
    have s2 : invokeFrom rs 2 1
        = { result := InvokeOutcome.failed InvokeError.rateLimitExhausted,
            calls := 2, sleeps := [d 1] } := by
      rw [show (2 : Nat) = 1 + 1 from rfl, invokeFrom_succ, h1]
      simp [s1]
    show invokeFrom rs 3 0 = _
    rw [show (3 : Nat) = 2 + 1 from rfl, invokeFrom_succ, h0]
    simp [s2]
  · intro rs d0 t h0 h1
    have s1 : invokeFrom rs 2 1
        = { result := InvokeOutcome.ok t, calls := 1, sleeps := [] } := by
      rw [show (2 : Nat) = 1 + 1 from rfl, invokeFrom_succ, h1]
    show invokeFrom rs 3 0 = _
    rw [show (3 : Nat) = 2 + 1 from rfl, invokeFrom_succ, h0]
    simp [s1]

theorem claim6_invoke_retry_bounded_witness :
    invoke_llm (fun _ => LLMAttempt.rateLimited 7)
      = { result := InvokeOutcome.failed InvokeError.rateLimitExhausted,
          calls := 3, sleeps := [7, 7] } :=
  claim6_invoke_retry_bounded.2.1 (fun _ => LLMAttempt.rateLimited 7)
    (fun _ => 7) rfl rfl rfl

/-! ## Cache Layer -/

/-- Modelled from the spec: a cache entry of `app/utils/cache.py` (absent
from the sources): value, creation timestamp and per-entry TTL in seconds;
TTL 0 means never expire. -/
structure CacheEntry (α : Type) where
  value : α
  created_at : Nat
  ttl_seconds : Nat
  deriving DecidableEq, Repr

/-- Modelled from the spec: an entry is valid iff its TTL is 0 or it is
younger than its TTL. -/
def entryValid {α : Type} (now : Nat) (e : CacheEntry α) : Bool :=
  e.ttl_seconds == 0 || decide (now - e.created_at < e.ttl_seconds)

/-- The key-to-entry store behind one memoized function. -/
structure MemoCache (κ α : Type) where
  entries : List (κ × CacheEntry α)
  deriving DecidableEq, Repr

/-- Most recent entry stored under a key, if any. -/
def cacheLookup {κ α : Type} [DecidableEq κ] (c : MemoCache κ α) (k : κ) :
    Option (CacheEntry α) :=
  match c.entries.find? (fun p => decide (p.1 = k)) with
  | some p => some p.2
  | none => none

/-- Modelled from the spec: one call of a function wrapped by
`cache_data(ttl_seconds)` — a valid cached entry is returned as is;
otherwise the underlying function runs and its result is stored with the
given TTL.  The Bool component reports whether the underlying function was
invoked. -/
def memoCall {κ α : Type} [DecidableEq κ] (f : κ → α) (ttl : Nat)
    (c : MemoCache κ α) (now : Nat) (k : κ) : α × MemoCache κ α × Bool :=
  match cacheLookup c k with
  | some e =>
      if entryValid now e then (e.value, c, false)
      else (f k, { entries := (k, ⟨f k, now, ttl⟩) :: c.entries }, true)
  | none => (f k, { entries := (k, ⟨f k, now, ttl⟩) :: c.entries }, true)

/-- The empty cache a memoized function starts from. -/
def emptyCache (κ α : Type) : MemoCache κ α := { entries := [] }

/-! ## Claims about the cache layer -/

/-- C7: with `ttl_seconds = 0`, two sequential calls of a memoized function
with the same argument — at any two times — invoke the underlying function
exactly once (the first call computes, the second hits the cache), both
calls return the value of the function, and a TTL-0 entry is valid at every
time (never expires for the lifetime of the process). -/
theorem claim7_cache_idempotence {κ α : Type} [DecidableEq κ]
    (f : κ → α) (k : κ) (t1 t2 : Nat) :
    (memoCall f 0 (emptyCache κ α) t1 k).2.2 = true ∧
    (memoCall f 0 (memoCall f 0 (emptyCache κ α) t1 k).2.1 t2 k).2.2 = false ∧
    (memoCall f 0 (emptyCache κ α) t1 k).1 = f k ∧
    (memoCall f 0 (memoCall f 0 (emptyCache κ α) t1 k).2.1 t2 k).1 = f k ∧
    (∀ (now : Nat) (e : CacheEntry α), e.ttl_seconds = 0 → entryValid now e = true) := by
  refine ⟨rfl, ?_, rfl, ?_, ?_⟩
  · simp [memoCall, cacheLookup, emptyCache, entryValid, List.find?]
  · simp [memoCall, cacheLookup, emptyCache, entryValid, List.find?]
  · intro now e he
    simp [entryValid, he]

theorem claim7_cache_idempotence_witness :
    (memoCall Nat.succ 0 (emptyCache Nat Nat) 5 41).2.2 = true ∧
    (memoCall Nat.succ 0 (memoCall Nat.succ 0 (emptyCache Nat Nat) 5 41).2.1 9000 41).2.2
      = false ∧
    (memoCall Nat.succ 0 (emptyCache Nat Nat) 5 41).1 = 42 ∧
    (memoCall Nat.succ 0 (memoCall Nat.succ 0 (emptyCache Nat Nat) 5 41).2.1 9000 41).1
      = 42 :=
  ⟨(claim7_cache_idempotence Nat.succ 41 5 9000).1,
   (claim7_cache_idempotence Nat.succ 41 5 9000).2.1,
   (claim7_cache_idempotence Nat.succ 41 5 9000).2.2.1,
   (claim7_cache_idempotence Nat.succ 41 5 9000).2.2.2.1⟩

/-! ## Memory Store -/

/-- Modelled from the spec: a MemoryRecord of `app/utils/memory.py` (absent
from the sources): id, situation description used for embedding, ticker,
decision, rationale, nullable outcome (none = pending), timestamp. -/
structure MemoryRecord where
  id : Nat
  embedding_text : String
  ticker : String
  decision : String
  rationale : String
  outcome : Option String
  timestamp : Nat
  deriving DecidableEq, Repr

/-- The persistent store: an append-only list of records plus the next
fresh id. -/
structure MemoryStore where
  records : List MemoryRecord
  nextId : Nat
  deriving DecidableEq, Repr

def emptyMemory : MemoryStore := { records := [], nextId := 0 }

/-- Modelled from the spec: `store(record) -> id` appends the record under a
fresh id with `outcome = pending`. -/
def store (m : MemoryStore) (r : MemoryRecord) : MemoryStore × Nat :=
  ({ records := m.records ++ [{ r with id := m.nextId, outcome := none }],
     nextId := m.nextId + 1 }, m.nextId)

/-- Outcome back-fill of a single record, keyed by id. -/
def setOutcome (i : Nat) (x : String) (rec : MemoryRecord) : MemoryRecord :=
  if rec.id = i then { rec with outcome := some x } else rec

/-- Modelled from the spec: `update_outcome(id, outcome)` mutates exactly
the outcome field of the record with the given id. -/
def update_outcome (m : MemoryStore) (i : Nat) (x : String) : MemoryStore :=
  { m with records := m.records.map (setOutcome i x) }

/-- Insertion step of the descending-by-score sort used by `similar`. -/
def insertBySim (score : MemoryRecord → Nat) (x : MemoryRecord) :
    List MemoryRecord → List MemoryRecord
  | [] => [x]
  | y :: ys =>
      if score y ≤ score x then x :: y :: ys else y :: insertBySim score x ys

/-- Descending-by-score insertion sort used by `similar`. -/
def sortBySim (score : MemoryRecord → Nat) : List MemoryRecord → List MemoryRecord
  | [] => []
  | x :: xs => insertBySim score x (sortBySim score xs)

/-- Modelled from the spec: `similar(query_text, k)` returns the `k`
highest-similarity records in descending similarity order; `sim` is the
embedding-similarity measure, external to the repository. -/
def similar (sim : String → String → Nat) (m : MemoryStore) (q : String)
    (k : Nat) : List MemoryRecord :=
  (sortBySim (fun rec => sim q rec.embedding_text) m.records).take k

/-- Store well-formedness: every held id is below the fresh-id counter. -/
def wfStore (m : MemoryStore) : Prop := ∀ rec ∈ m.records, rec.id < m.nextId

lemma sortBySim_head (score : MemoryRecord → Nat) :
    ∀ l : List MemoryRecord, l ≠ [] →
      ∃ w t, sortBySim score l = w :: t ∧ w ∈ l ∧ ∀ z ∈ l, score z ≤ score w := by
  intro l
  induction l with
  | nil => intro h; exact absurd rfl h
  | cons x xs ih =>
      intro _
      rcases eq_or_ne xs [] with hxs | hxs
      · subst hxs
        refine ⟨x, [], rfl, List.mem_singleton_self x, ?_⟩
        intro z hz
        rcases List.mem_singleton.mp hz with rfl
        exact le_refl _
      · obtain ⟨w, t, hsort, hmem, hmax⟩ := ih hxs
        show ∃ w' t', insertBySim score x (sortBySim score xs) = w' :: t' ∧ _
        rw [hsort]
        by_cases hc : score w ≤ score x
        · refine ⟨x, w :: t, by simp [insertBySim, hc], List.mem_cons_self x xs, ?_⟩
          intro z hz
          rcases List.mem_cons.mp hz with rfl | hz
          · exact le_refl _
          · exact le_trans (hmax z hz) hc
        · refine ⟨w, insertBySim score x t, by simp [insertBySim, hc],
            List.mem_cons_of_mem x hmem, ?_⟩
          intro z hz
          rcases List.mem_cons.mp hz with rfl | hz
          · exact le_of_not_le hc
          · exact hmax z hz

lemma setOutcome_skip (i : Nat) (x : String) (rec : MemoryRecord)
    (h : rec.id ≠ i) : setOutcome i x rec = rec := by
  simp [setOutcome, h]

lemma map_update_skip (i : Nat) (x : String) :
    ∀ l : List MemoryRecord, (∀ rec ∈ l, rec.id ≠ i) →
      l.map (setOutcome i x) = l := by
  intro l
  induction l with
  | nil => intro _; rfl
  | cons a as ih =>
      intro h
      have ha : a.id ≠ i := h a (List.mem_cons_self a as)
      simp only [List.map_cons, setOutcome_skip i x a ha, List.cons.injEq, true_and]
      exact ih fun rec hrec => h rec (List.mem_cons_of_mem a hrec)

lemma update_update (m : MemoryStore) (i : Nat) (x y : String) :
    update_outcome (update_outcome m i x) i y = update_outcome m i y := by
  unfold update_outcome
  simp only [List.map_map, MemoryStore.mk.injEq, and_true]
  apply List.map_congr_left
  intro rec _
  by_cases h : rec.id = i <;> simp [setOutcome, h, Function.comp]

/-- The round-trip core: after `store` then `update_outcome` on the fresh
id, the top-1 similarity query for the stored record's text returns exactly
the stored record carrying the updated outcome, provided older records are
strictly less similar to the query than the query itself. -/
lemma memory_round_trip (sim : String → String → Nat) (m : MemoryStore)
    (r : MemoryRecord) (x : String) (hwf : wfStore m)
    (hsim : ∀ rec ∈ m.records,
      sim r.embedding_text rec.embedding_text
        < sim r.embedding_text r.embedding_text) :
    similar sim (update_outcome (store m r).1 (store m r).2 x) r.embedding_text 1
      = [{ r with id := m.nextId, outcome := some x }] := by
  have hrecords :
      (update_outcome (store m r).1 (store m r).2 x).records
        = m.records ++ [{ r with id := m.nextId, outcome := some x }] := by
    show ((m.records ++ [{ r with id := m.nextId, outcome := none }]).map
        (setOutcome m.nextId x)) = _
    rw [List.map_append,
      map_update_skip m.nextId x m.records (fun rec hrec => Nat.ne_of_lt (hwf rec hrec)),
      List.map_singleton]
    simp [setOutcome]
  unfold similar
  rw [hrecords]
  obtain ⟨w, t, hsort, hmem, hmax⟩ :=
    sortBySim_head (fun rec => sim r.embedding_text rec.embedding_text)
      (m.records ++ [{ r with id := m.nextId, outcome := some x }]) (by simp)
  have hw : w = { r with id := m.nextId, outcome := some x } := by
    rcases List.mem_append.mp hmem with hold | hnew
    · exfalso
      have h1 := hsim w hold
      have h2 := hmax { r with id := m.nextId, outcome := some x }
        (List.mem_append_right _ (List.mem_singleton_self _))
      exact absurd h2 (by simpa using Nat.not_le_of_lt h1)
    · exact List.mem_singleton.mp hnew
  rw [hsort, hw]
  rfl

/-! ## Claims about the memory store -/

/-- C8: storing a record, back-filling its outcome with `update_outcome` on
the returned id, and querying `similar` with the record's own text and k = 1
over the otherwise-unchanged store returns exactly the stored record with
outcome X — provided the store is well-formed and no pre-existing record
matches the query text at least as well as the record itself (embedding
similarity is external; with ties the nearest-neighbor result is
unspecified).  Moreover `update_outcome` is idempotent when repeated with
the same value and last-write-wins otherwise. -/
theorem claim8_memory_round_trip_update (sim : String → String → Nat)
    (m : MemoryStore) (r : MemoryRecord) (x : String) (hwf : wfStore m)
    (hsim : ∀ rec ∈ m.records,
      sim r.embedding_text rec.embedding_text
        < sim r.embedding_text r.embedding_text) :
    (similar sim (update_outcome (store m r).1 (store m r).2 x) r.embedding_text 1
        = [{ r with id := m.nextId, outcome := some x }] ∧
     ∀ rec ∈ similar sim (update_outcome (store m r).1 (store m r).2 x)
        r.embedding_text 1, rec.outcome = some x) ∧
    (∀ (m' : MemoryStore) (i : Nat) (y : String),
      update_outcome (update_outcome m' i y) i y = update_outcome m' i y) ∧
    (∀ (m' : MemoryStore) (i : Nat) (y z : String),
      update_outcome (update_outcome m' i y) i z = update_outcome m' i z) := by
  have hrt := memory_round_trip sim m r x hwf hsim
  refine ⟨⟨hrt, ?_⟩, fun m' i y => update_update m' i y y,
    fun m' i y z => update_update m' i y z⟩
  intro rec hrec
  rw [hrt] at hrec
  rcases List.mem_singleton.mp hrec with rfl
  rfl

theorem claim8_memory_round_trip_update_witness :
    similar (fun a b => if a = b then 1 else 0)
      (update_outcome
        (store emptyMemory
          { id := 0, embedding_text := "NVDA high valuation", ticker := "NVDA",
            decision := "SELL", rationale := "overvalued", outcome := none,
            timestamp := 20251113 }).1
        (store emptyMemory
          { id := 0, embedding_text := "NVDA high valuation", ticker := "NVDA",
            decision := "SELL", rationale := "overvalued", outcome := none,
            timestamp := 20251113 }).2
        "hit take profit")
      "NVDA high valuation" 1
      = [{ id := 0, embedding_text := "NVDA high valuation", ticker := "NVDA",
           decision := "SELL", rationale := "overvalued",
           outcome := some "hit take profit", timestamp := 20251113 }] :=
  (claim8_memory_round_trip_update (fun a b => if a = b then 1 else 0)
    emptyMemory
    { id := 0, embedding_text := "NVDA high valuation", ticker := "NVDA",
      decision := "SELL", rationale := "overvalued", outcome := none,
      timestamp := 20251113 }
    "hit take profit"
    (by intro rec hrec; simp [emptyMemory] at hrec)
    (by intro rec hrec; simp [emptyMemory] at hrec)).1.1

/-! ## Frontend SSE consumer and progress bar (`frontend-ts/src/main.ts`) -/

/-- Events on the analyze stream, as dispatched on by the `onmessage`
handler of `startAnalysis` in `main.ts`: processing (agent, step, total),
executing, complete (result), error (message). -/
inductive StreamEvent
  | processing (agent : String) (step : Nat) (total : Nat)
  | executing
  | complete (result : String)
  | error (message : String)
  deriving DecidableEq, Repr

/-- `updateProgress` of `main.ts` (line 147): the percentage written to the
progress bar is `Math.min(100, Math.round(step / total * 100))`; JS number
arithmetic is embedded as exact rational arithmetic. -/
def updateProgressPct (step total : Nat) : Int :=
  min 100 (round ((step : ℚ) / (total : ℚ) * 100))

/-- The pieces of `main.ts` UI state that the stream handler mutates:
whether the EventSource is open, the progress width, the results blocks
rendered by `buildResults`, the error notice shown by `showError`, and the
analyze-button busy state. -/
structure UIState where
  connectionOpen : Bool
  progressPct : Int
  resultsBuilt : List String
  errorShown : Option String
  analyzing : Bool
  deriving DecidableEq, Repr

/-- UI state right after `startAnalysis` opened the EventSource. -/
def initialUI : UIState :=
  { connectionOpen := true, progressPct := 0, resultsBuilt := [],
    errorShown := none, analyzing := true }

/-- The `onmessage` dispatch of `startAnalysis` (`main.ts` lines 366-393):
processing updates the bar; executing forces 90 percent; complete sets 100
percent, renders the results and closes the stream; error shows the message
and closes the stream.  Closing re-enables the analyze button. -/
def handleEvent (ui : UIState) : StreamEvent → UIState
  | StreamEvent.processing _ step total =>
      { ui with progressPct := updateProgressPct step total }
  | StreamEvent.executing => { ui with progressPct := 90 }
  | StreamEvent.complete result =>
      { ui with progressPct := 100,
                resultsBuilt := ui.resultsBuilt ++ [result],
                connectionOpen := false, analyzing := false }
  | StreamEvent.error message =>
      { ui with errorShown := some message,
                connectionOpen := false, analyzing := false }

/-- Browser delivery loop: events are handed to `onmessage` only while the
EventSource is open; after `close()` nothing further is processed. -/
def consumeEvents (ui : UIState) : List StreamEvent → UIState
  | [] => ui
  | e :: es =>
      if ui.connectionOpen then consumeEvents (handleEvent ui e) es else ui

/-- Modelled from the spec: the backend's `/analyze/stream` emitter (absent
from the sources) — ordered processing events for each agent, one executing
event, then exactly one terminal complete or error event. -/
def emitStream (agentNames : List String) (outcome : Except String String) :
    List StreamEvent :=
  (agentNames.enum.map
      (fun p => StreamEvent.processing p.2 (p.1 + 1) agentNames.length))
    ++ [StreamEvent.executing]
    ++ (match outcome with
        | Except.ok r => [StreamEvent.complete r]
        | Except.error m => [StreamEvent.error m])

def isErrorEvent : StreamEvent → Bool
  | StreamEvent.error _ => true
  | _ => false

/-- Nothing at all — in particular no complete event — follows an error
event in the list. -/
def errorTerminal : List StreamEvent → Bool
  | [] => true
  | StreamEvent.error _ :: rest => rest.isEmpty
  | _ :: rest => errorTerminal rest

lemma errorTerminal_append (rest : List StreamEvent) :
    ∀ l : List StreamEvent, (∀ e ∈ l, isErrorEvent e = false) →
      errorTerminal (l ++ rest) = errorTerminal rest := by
  intro l
  induction l with
  | nil => intro _; rfl
  | cons e es ih =>
      intro h
      have he := h e (List.mem_cons_self e es)
      have hes := fun x hx => h x (List.mem_cons_of_mem e hx)
      cases e with
      | processing a s t => exact ih hes
      | executing => exact ih hes
      | complete r => exact ih hes
      | error m => simp [isErrorEvent] at he

lemma consume_closed (ui : UIState) (h : ui.connectionOpen = false) :
    ∀ es : List StreamEvent, consumeEvents ui es = ui := by
  intro es
  cases es with
  | nil => rfl
  | cons e es => simp [consumeEvents, h]

/-! ## Claims about the event stream -/

/-- C9: the error event is terminal.  On the emission side (modelled from
the spec) no event of any kind — in particular no complete event — follows
an error event on the stream.  On the consumer side (`main.ts`), receiving
an error event shows the message and closes the EventSource, so no
subsequent complete event is ever processed: the UI state after an error is
exactly the error-handling state, whatever events would follow. -/
theorem claim9_error_event_terminal :
    (∀ (agentNames : List String) (outcome : Except String String),
      errorTerminal (emitStream agentNames outcome) = true) ∧
    (∀ (ui : UIState) (m : String) (es : List StreamEvent),
      ui.connectionOpen = true →
      consumeEvents ui (StreamEvent.error m :: es)
          = handleEvent ui (StreamEvent.error m) ∧
      (handleEvent ui (StreamEvent.error m)).connectionOpen = false ∧
      (consumeEvents ui (StreamEvent.error m :: es)).resultsBuilt
          = ui.resultsBuilt ∧
      (consumeEvents ui (StreamEvent.error m :: es)).errorShown = some m) := by
  constructor
  · intro agentNames outcome
    have hproc : ∀ e ∈ agentNames.enum.map
        (fun p => StreamEvent.processing p.2 (p.1 + 1) agentNames.length),
        isErrorEvent e = false := by
      intro e he
      obtain ⟨p, _, rfl⟩ := List.mem_map.mp he
      rfl
    unfold emitStream
    rw [List.append_assoc, errorTerminal_append _ _ hproc]
    cases outcome with
    | ok r => rfl
    | error m => rfl
  · intro ui m es hopen
    have hstep : consumeEvents ui (StreamEvent.error m :: es)
        = handleEvent ui (StreamEvent.error m) := by
      show (if ui.connectionOpen then
          consumeEvents (handleEvent ui (StreamEvent.error m)) es else ui)
        = handleEvent ui (StreamEvent.error m)
      rw [hopen, if_pos rfl]
      exact consume_closed _ rfl es
    exact ⟨hstep, rfl, by rw [hstep]; rfl, by rw [hstep]; rfl⟩

theorem claim9_error_event_terminal_witness :
    initialUI.connectionOpen = true ∧
    consumeEvents initialUI
        [StreamEvent.error "model failure", StreamEvent.complete "late result"]
      = handleEvent initialUI (StreamEvent.error "model failure") ∧
    (consumeEvents initialUI
        [StreamEvent.error "model failure", StreamEvent.complete "late result"]).resultsBuilt
      = [] :=
  ⟨rfl,
   (claim9_error_event_terminal.2 initialUI "model failure"
     [StreamEvent.complete "late result"] rfl).1,
   (claim9_error_event_terminal.2 initialUI "model failure"
     [StreamEvent.complete "late result"] rfl).2.2.1⟩

/-- C10: for every processing event with `total >= 1`, the percentage the
handler writes is `updateProgressPct step total`, it never exceeds 100 —
when `step > total` it is exactly 100 — and when `step <= total` the
min-clamp is inactive: the value is plainly `round(step / total * 100)`. -/
theorem claim10_progress_clamped (step total : Nat) (h : 1 ≤ total) :
    (∀ (ui : UIState) (a : String),
      (handleEvent ui (StreamEvent.processing a step total)).progressPct
        = updateProgressPct step total) ∧
    updateProgressPct step total ≤ 100 ∧
    (total < step → updateProgressPct step total = 100) ∧
    (step ≤ total →
      updateProgressPct step total = round ((step : ℚ) / (total : ℚ) * 100)) := by
  have htpos : (0 : ℚ) < (total : ℚ) := by
    exact_mod_cast Nat.lt_of_lt_of_le Nat.zero_lt_one h
  refine ⟨fun ui a => rfl, min_le_left _ _, ?_, ?_⟩
  · intro hlt
    have hge : (100 : ℚ) ≤ (step : ℚ) / (total : ℚ) * 100 := by
      have h1 : (1 : ℚ) ≤ (step : ℚ) / (total : ℚ) := by
        rw [le_div_iff₀ htpos]
        simpa using (by exact_mod_cast Nat.le_of_lt hlt : (total : ℚ) ≤ (step : ℚ))
      nlinarith
    have hround : (100 : Int) ≤ round ((step : ℚ) / (total : ℚ) * 100) := by
      rw [round_eq]
      calc (100 : Int) = ⌊(100 : ℚ)⌋ := by norm_num
        _ ≤ ⌊(step : ℚ) / (total : ℚ) * 100 + 1 / 2⌋ := by
            apply Int.floor_le_floor
            linarith
    unfold updateProgressPct
    omega
  · intro hle
    have hle100 : (step : ℚ) / (total : ℚ) * 100 ≤ 100 := by
      have h1 : (step : ℚ) / (total : ℚ) ≤ 1 := by
        rw [div_le_one htpos]
        exact_mod_cast hle
      nlinarith
    have hround : round ((step : ℚ) / (total : ℚ) * 100) ≤ 100 := by
      rw [round_eq]
      calc ⌊(step : ℚ) / (total : ℚ) * 100 + 1 / 2⌋
          ≤ ⌊(201 : ℚ) / 2⌋ := by
            apply Int.floor_le_floor
            linarith
        _ = 100 := by norm_num
    unfold updateProgressPct
    omega

theorem claim10_progress_clamped_witness :
    1 ≤ 9 ∧ updateProgressPct 14 9 ≤ 100 ∧ updateProgressPct 14 9 = 100 :=
  ⟨by norm_num,
   (claim10_progress_clamped 14 9 (by norm_num)).2.1,
   (claim10_progress_clamped 14 9 (by norm_num)).2.2.1 (by norm_num)⟩

end NexusTrader
